import Mathlib

/-!
Shallow embedding of `img2coe` (src/main.rs), a tool converting a raster
image either to a palette file (distinct colors, each with a sequential
index) or to a COE memory-initialization file (one hexadecimal code per
pixel, looked up in a user-supplied palette table).

Conventions of the embedding:
* Rust `Rgba<u8>` is a structure of four `Nat` components (values < 256
  wherever the code constructs them).
* Rust `&str` values are Lean `String`s; the byte-level operations of
  `parse_color` (slicing `&x[0..=1]` etc., which panics when a slice
  boundary falls inside a multi-byte UTF-8 character) are modelled by
  computing the UTF-8 bytes of the string and checking Rust's
  `is_char_boundary` condition explicitly.  A Rust panic is modelled as
  the `ParseResult.panic` / `CError.panic` outcome.
* The TOML value tree is modelled by the inductive `Value`; a TOML table
  is an association list in iteration order.
* `HashMap` is modelled as an association list where `insert` conses at
  the head and `lookup` takes the first match, which realizes the
  last-write-wins semantics of `HashMap::insert`.
* `HashSet` iteration order is unspecified in Rust; the palette
  extraction is modelled with first-occurrence order (`List.dedup`).
  Every property proved about it is order-independent.
* The side effects of the `Convert` arm are modelled as a trace of
  `Event`s in program order, paired with an optional error.
-/

namespace Img2coe

/-- Rust `Rgba<u8>`: four 8-bit components, equality by components. -/
structure Rgba where
  r : Nat
  g : Nat
  b : Nat
  a : Nat
deriving DecidableEq, Repr

/-- Outcome of `parse_color`: `Some` / `None` / a Rust panic raised by
string slicing at a non-char-boundary byte index. -/
inductive ParseResult where
  | panic
  | noMatch
  | ok (c : Rgba)
deriving DecidableEq, Repr

/-- UTF-8 encoding of a single unicode scalar value, as byte values. -/
def utf8BytesChar (c : Char) : List Nat :=
  let n := c.toNat
  if n < 0x80 then [n]
  else if n < 0x800 then [0xC0 + n / 0x40, 0x80 + n % 0x40]
  else if n < 0x10000 then
    [0xE0 + n / 0x1000, 0x80 + (n / 0x40) % 0x40, 0x80 + n % 0x40]
  else
    [0xF0 + n / 0x40000, 0x80 + (n / 0x1000) % 0x40,
     0x80 + (n / 0x40) % 0x40, 0x80 + n % 0x40]

/-- UTF-8 encoding of a string's characters, as byte values. -/
def utf8Bytes (s : List Char) : List Nat :=
  (s.map utf8BytesChar).flatten

/-- Rust `str::is_char_boundary` as implemented: index `0` is always a
boundary, otherwise the byte at the index must exist and not be a UTF-8
continuation byte (`0x80..=0xBF`). -/
def isCharBoundary (bs : List Nat) (i : Nat) : Bool :=
  if i = 0 then true
  else
    match bs.get? i with
    | none => i == bs.length
    | some b => b < 0x80 || 0xC0 ≤ b

/-- `char::to_digit(16)` on a byte interpreted as a char. -/
def hexDigitVal (b : Nat) : Option Nat :=
  if 0x30 ≤ b ∧ b ≤ 0x39 then some (b - 0x30)
  else if 0x61 ≤ b ∧ b ≤ 0x66 then some (b - 0x61 + 10)
  else if 0x41 ≤ b ∧ b ≤ 0x46 then some (b - 0x41 + 10)
  else none

/-- Digit-accumulation loop of `u8::from_str_radix(_, 16)` with the
checked multiplication and addition (overflow over 255 fails). -/
def fsrGo : List Nat → Nat → Option Nat
  | [], acc => some acc
  | b :: rest, acc =>
    match hexDigitVal b with
    | none => none
    | some d =>
      if 255 < acc * 16 then none
      else if 255 < acc * 16 + d then none
      else fsrGo rest (acc * 16 + d)

/-- `u8::from_str_radix(src, 16)`: rejects the empty string, strips one
leading `+` (`-` is not accepted for unsigned types), requires at least
one digit, then accumulates hex digits with overflow checks. -/
def u8FromStrRadix16 (bs : List Nat) : Option Nat :=
  match bs with
  | [] => none
  | b :: rest =>
    let digits := if b = 0x2B then rest else bs
    match digits with
    | [] => none
    | _ => fsrGo digits 0

/-- Byte-range slice `&x[i..j]` of a byte list (bounds handled by the
caller's boundary checks). -/
def slice (x : List Nat) (i j : Nat) : List Nat :=
  (x.drop i).take (j - i)

/-- Body of `parse_color` after the `#` has been stripped, operating on
the UTF-8 bytes of the remainder, mirroring the source line by line:
length check, then for each of the four slices `&x[0..=1]`, `&x[2..=3]`,
`&x[4..=5]`, `&x[6..=7]` first the slice (panicking unless both byte
indices are char boundaries), then `u8::from_str_radix(_, 16).ok()?`. -/
def parseBytes (x : List Nat) : ParseResult :=
  if x.length ≠ 8 then .noMatch
  else if ¬ (isCharBoundary x 0 && isCharBoundary x 2) then .panic
  else
    match u8FromStrRadix16 (slice x 0 2) with
    | none => .noMatch
    | some r =>
      if ¬ (isCharBoundary x 2 && isCharBoundary x 4) then .panic
      else
        match u8FromStrRadix16 (slice x 2 4) with
        | none => .noMatch
        | some g =>
          if ¬ (isCharBoundary x 4 && isCharBoundary x 6) then .panic
          else
            match u8FromStrRadix16 (slice x 4 6) with
            | none => .noMatch
            | some b =>
              if ¬ (isCharBoundary x 6 && isCharBoundary x 8) then .panic
              else
                match u8FromStrRadix16 (slice x 6 8) with
                | none => .noMatch
                | some a => .ok ⟨r, g, b, a⟩

/-- `fn parse_color(x: &str) -> Option<Rgba<u8>>` (src/main.rs:36-50).
Checks the `#` prefix, drops it (always a char boundary since `#` is
ASCII), and hands the remaining bytes to `parseBytes`. -/
def parse_color (s : String) : ParseResult :=
  match s.data with
  | [] => .noMatch
  | c :: rest => if c = '#' then parseBytes (utf8Bytes rest) else .noMatch

/-- Rust `format!("{n:2x}")` for a `u8` value: lowercase hexadecimal,
right-aligned in a field of width 2 padded with SPACES (not zeros). -/
def rustHex2 (n : Nat) : String :=
  let ds := Nat.toDigits 16 n
  String.mk (List.replicate (2 - ds.length) ' ' ++ ds)

/-- `impl Display for FormattedColor` (src/main.rs:54-59):
`format!("#{r:2x}{g:2x}{b:2x}{a:2x}")`. -/
def formatColor (c : Rgba) : String :=
  "#" ++ rustHex2 c.r ++ rustHex2 c.g ++ rustHex2 c.b ++ rustHex2 c.a

/-- Rust `format!("{v:x}")` for an `i64`: the two's-complement bit
pattern printed as unpadded lowercase hexadecimal. -/
def i64LowerHex (v : Int) : String :=
  String.mk (Nat.toDigits 16 ((v % ((2:Int) ^ 64)).toNat))

/-- TOML value tree (`toml::Value`), with a table as an association list
in iteration order. -/
inductive Value where
  | int (n : Int)
  | str (s : String)
  | boolean (b : Bool)
  | table (m : List (String × Value))

/-- `toml::Value::as_table`. -/
def Value.as_table : Value → Option (List (String × Value))
  | .table m => some m
  | _ => none

/-- `toml::Value::as_integer`. -/
def Value.as_integer : Value → Option Int
  | .int n => some n
  | _ => none

/-- `Table::get` on a TOML table (keys are unique in a parsed table;
the first match is taken). -/
def tableGet (t : List (String × Value)) (k : String) : Option Value :=
  (t.find? (fun kv => kv.1 == k)).map (·.2)

/-- `table.get("palette").and_then(Value::as_table)` (src/main.rs:88). -/
def getPaletteTable (t : List (String × Value)) : Option (List (String × Value)) :=
  (tableGet t "palette").bind Value.as_table

/-- Errors of the `Convert` arm (the `bail!` sites of src/main.rs plus
the modelled panic of `parse_color`). -/
inductive CError where
  | missingPaletteTable
  | invalidColor (key : String)
  | invalidValueType (v : Value)
  | unmappedColor (c : Rgba)
  | panic

/-- The palette `HashMap<Rgba<u8>, i64>` as an association list; insert
conses at the head so that the first match is the most recent write. -/
def palInsert (p : List (Rgba × Int)) (c : Rgba) (n : Int) : List (Rgba × Int) :=
  (c, n) :: p

/-- `HashMap::get` on the modelled palette. -/
def palLookup (p : List (Rgba × Int)) (c : Rgba) : Option Int :=
  (p.find? (fun e => e.1 == c)).map (·.2)

/-- The `for (key, value) in palette_map` loop of src/main.rs:92-100:
the key must `parse_color` (else `bail!("invalid color: {key}")`, or a
panic propagates), the value must be an integer (else `bail!("value
must be integer: {value}")`), and valid pairs are inserted. -/
def processEntries : List (String × Value) → List (Rgba × Int) →
    Except CError (List (Rgba × Int))
  | [], acc => .ok acc
  | (k, v) :: rest, acc =>
    match parse_color k with
    | .panic => .error .panic
    | .noMatch => .error (.invalidColor k)
    | .ok c =>
      match v.as_integer with
      | none => .error (.invalidValueType v)
      | some n => processEntries rest (palInsert acc c n)

/-- Palette-table validation of the `Convert` arm (src/main.rs:87-100):
requires a top-level `palette` table, then processes its entries. -/
def parsePalette (t : List (String × Value)) : Except CError (List (Rgba × Int)) :=
  match getPaletteTable t with
  | none => .error .missingPaletteTable
  | some m => processEntries m []

/-- Observable effects of the `Convert` arm, in program order. -/
inductive Event where
  | createCoeFile
  | writeCoe (s : String)
  | openImage
deriving DecidableEq

/-- The token written per pixel: `format!("{mapping:x} ")`
(src/main.rs:110). -/
def coeToken (n : Int) : String :=
  i64LowerHex n ++ " "

/-- The `bail!` message of src/main.rs:112. -/
def unmappedMessage (c : Rgba) : String :=
  "could not continue: palette has no mapping for color \"" ++ formatColor c ++ "\""

/-- Pixel loop of src/main.rs:108-116: per pixel in row-major decode
order, write the token for its palette code, or abort at the first
unmapped color; after a full pass write the terminating `;`. -/
def pixelLoop (pal : List (Rgba × Int)) : List Rgba → List Event × Option CError
  | [] => ([.writeCoe ";"], none)
  | c :: rest =>
    match palLookup pal c with
    | some n =>
      let r := pixelLoop pal rest
      (.writeCoe (coeToken n) :: r.1, r.2)
    | none => ([], some (.unmappedColor c))

/-- The whole `Convert` arm (src/main.rs:83-117) given the parsed TOML
top-level table, the substituted COE template header and the image's
row-major pixel stream: palette validation first (producing no events),
then create the output file, write the header, open the image, and run
the pixel loop. -/
def convertRun (t : List (String × Value)) (header : String) (pixels : List Rgba) :
    List Event × Option CError :=
  match parsePalette t with
  | .error e => ([], some e)
  | .ok pal =>
    let r := pixelLoop pal pixels
    (.createCoeFile :: .writeCoe header :: .openImage :: r.1, r.2)

/-- `.enumerate()` over a list, starting at `i`. -/
def enumerateFrom (i : Nat) : List Rgba → List (Nat × Rgba)
  | [] => []
  | a :: as => (i, a) :: enumerateFrom (i + 1) as

/-- The `Palette` arm (src/main.rs:65-81): collect the set of distinct
pixel colors (`HashSet`, iteration order unspecified — modelled with
first-occurrence order, all proved properties being order-independent)
and pair each with its enumeration index.  Entry `(i, c)` is written as
the line `"<formatted c>" = i`. -/
def extractPalette (pixels : List Rgba) : List (Nat × Rgba) :=
  enumerateFrom 0 pixels.dedup

/-- The property `parse_color` was specified to have: a `#` followed by
exactly 8 hexadecimal digits. -/
def isHexByte (b : Nat) : Prop :=
  (0x30 ≤ b ∧ b ≤ 0x39) ∨ (0x61 ≤ b ∧ b ≤ 0x66) ∨ (0x41 ≤ b ∧ b ≤ 0x46)

instance (b : Nat) : Decidable (isHexByte b) := by unfold isHexByte; infer_instance

/-- A string of the shape `#` followed by exactly 8 hex digits (the
pattern the specification says `parse_color` accepts). -/
def hexPattern (s : String) : Prop :=
  s.data.head? = some '#' ∧ s.data.tail.length = 8 ∧
    ∀ ch ∈ s.data.tail, isHexByte ch.toNat

instance (s : String) : Decidable (hexPattern s) := by
  unfold hexPattern; infer_instance

/-- A two-byte group accepted by `u8::from_str_radix(_, 16)`: either two
hex digits, or a leading `+` sign followed by one hex digit. -/
def fsrPairSpec (x y : Nat) : Prop :=
  (isHexByte x ∧ isHexByte y) ∨ (x = 0x2B ∧ isHexByte y)

instance (x y : Nat) : Decidable (fsrPairSpec x y) := by unfold fsrPairSpec; infer_instance

/-- Value of a hex digit byte (0 when not a digit). -/
def hvD (b : Nat) : Nat :=
  (hexDigitVal b).getD 0

/-- Value decoded from an accepted two-byte group. -/
def fsrPairVal (x y : Nat) : Nat :=
  if x = 0x2B then hvD y else hvD x * 16 + hvD y

/-- What `parse_color` actually accepts, phrased on the input string:
a `#` followed by exactly 8 UTF-8 bytes whose four consecutive two-byte
groups are each accepted by `u8::from_str_radix(_, 16)`, the groups
decoding red, green, blue, alpha in order. -/
def parseSpec (s : String) (c : Rgba) : Prop :=
  ∃ b0 b1 b2 b3 b4 b5 b6 b7,
    s.data.head? = some '#' ∧
    utf8Bytes s.data.tail = [b0, b1, b2, b3, b4, b5, b6, b7] ∧
    fsrPairSpec b0 b1 ∧ fsrPairSpec b2 b3 ∧ fsrPairSpec b4 b5 ∧ fsrPairSpec b6 b7 ∧
    c = ⟨fsrPairVal b0 b1, fsrPairVal b2 b3, fsrPairVal b4 b5, fsrPairVal b6 b7⟩

/-- Whether a `ParseResult` is a successful parse. -/
def ParseResult.isOk : ParseResult → Bool
  | .ok _ => true
  | _ => false

/-- An entry of the `palette` table that passes both checks of the entry
loop: the key parses as a color and the value is an integer. -/
def validEntry (kv : String × Value) : Prop :=
  (parse_color kv.1).isOk = true ∧ kv.2.as_integer.isSome = true

instance (kv : String × Value) : Decidable (validEntry kv) := by
  unfold validEntry; infer_instance

/-- The outcome the entry loop produces for a malformed entry. -/
def entryError (kv : String × Value) : CError :=
  match parse_color kv.1 with
  | .panic => .panic
  | .noMatch => .invalidColor kv.1
  | .ok _ => .invalidValueType kv.2

/-- The `as_integer` value of the last entry of the palette table whose
key parses to the color `c` — the entry whose insert survives in the
`HashMap`, because later inserts overwrite earlier ones; `none` when no
key of the table parses to `c`. -/
def lastEntryCode (m : List (String × Value)) (c : Rgba) : Option Int :=
  match m.reverse.find? (fun kv => parse_color kv.1 == .ok c) with
  | some kv => kv.2.as_integer
  | none => none

/-! ### Helper lemmas -/

theorem enumerateFrom_map_fst (i : Nat) (l : List Rgba) :
    (enumerateFrom i l).map Prod.fst = List.range' i l.length := by
  induction l generalizing i with
  | nil => rfl
  | cons a as ih =>
      simp only [enumerateFrom, List.map_cons, ih, List.length_cons, List.range'_succ]

theorem enumerateFrom_map_snd (i : Nat) (l : List Rgba) :
    (enumerateFrom i l).map Prod.snd = l := by
  induction l generalizing i with
  | nil => rfl
  | cons a as ih => simp only [enumerateFrom, List.map_cons, ih]

theorem enumerateFrom_length (i : Nat) (l : List Rgba) :
    (enumerateFrom i l).length = l.length := by
  induction l generalizing i with
  | nil => rfl
  | cons a as ih => simp only [enumerateFrom, List.length_cons, ih]

theorem pixelLoop_all_mapped (pal : List (Rgba × Int)) (px : List Rgba)
    (h : ∀ c ∈ px, (palLookup pal c).isSome) :
    pixelLoop pal px =
      ((px.map fun c => Event.writeCoe (coeToken ((palLookup pal c).getD 0))) ++
        [Event.writeCoe ";"], none) := by
  induction px with
  | nil => rfl
  | cons c rest ih =>
      obtain ⟨n, hn⟩ := Option.isSome_iff_exists.mp (h c (List.mem_cons_self c rest))
      have hrest := ih fun d hd => h d (List.mem_cons_of_mem c hd)
      simp only [pixelLoop, hn, hrest, List.map_cons, List.cons_append, Option.getD_some]

/-! ### C1 -/

/-- C1: when the palette table parses and every pixel color is mapped,
the `Convert` command succeeds; after the header (and the image decode),
the writes are exactly one token per pixel in row-major order, each
token the pixel's code in lowercase hexadecimal followed by one space,
with a terminating `;` written after the last token. -/
theorem convert_output_row_major (t : List (String × Value)) (P : List (Rgba × Int))
    (header : String) (px : List Rgba) (hP : parsePalette t = .ok P)
    (hmap : ∀ c ∈ px, (palLookup P c).isSome) :
    convertRun t header px =
      (Event.createCoeFile :: Event.writeCoe header :: Event.openImage ::
        ((px.map fun c => Event.writeCoe (coeToken ((palLookup P c).getD 0))) ++
          [Event.writeCoe ";"]), none) := by
  simp only [convertRun, hP, pixelLoop_all_mapped P px hmap]

/-- Witness for C1 at a concrete palette and 3-pixel image. -/
theorem convert_output_row_major_witness :
    convertRun [("palette", Value.table [("#00000000", Value.int 1), ("#ffffffff", Value.int 10)])]
        "H" [⟨255, 255, 255, 255⟩, ⟨0, 0, 0, 0⟩, ⟨255, 255, 255, 255⟩] =
      ([Event.createCoeFile, Event.writeCoe "H", Event.openImage, Event.writeCoe "a ",
        Event.writeCoe "1 ", Event.writeCoe "a ", Event.writeCoe ";"], none) := by
  rw [convert_output_row_major
    [("palette", Value.table [("#00000000", Value.int 1), ("#ffffffff", Value.int 10)])]
    [(⟨255, 255, 255, 255⟩, 10), (⟨0, 0, 0, 0⟩, 1)]
    "H" [⟨255, 255, 255, 255⟩, ⟨0, 0, 0, 0⟩, ⟨255, 255, 255, 255⟩] rfl (by decide)]
  rfl

/-! ### C2 -/

/-- C2: palette extraction on an image with exactly N distinct pixel
colors yields exactly N entries, indices being exactly `0..N-1`, each
distinct color appearing exactly once (order unconstrained). -/
theorem palette_extraction_entries (px : List Rgba) :
    (extractPalette px).length = px.toFinset.card ∧
    (extractPalette px).map Prod.fst = List.range px.toFinset.card ∧
    ((extractPalette px).map Prod.snd).Nodup ∧
    ∀ c : Rgba, c ∈ (extractPalette px).map Prod.snd ↔ c ∈ px := by
  have hcard : px.toFinset.card = px.dedup.length := List.card_toFinset px
  refine ⟨?_, ?_, ?_, ?_⟩
  · rw [extractPalette, enumerateFrom_length, hcard]
  · rw [extractPalette, enumerateFrom_map_fst, hcard, List.range_eq_range']
  · rw [extractPalette, enumerateFrom_map_snd]
    exact px.nodup_dedup
  · intro c
    rw [extractPalette, enumerateFrom_map_snd]
    exact List.mem_dedup

/-! ### C10 -/

/-- C10: when palette validation fails during `Convert` (missing
`palette` table, invalid color key, or non-integer value), the run
produces no events at all — in particular the COE output file is never
created and no header is written. -/
theorem no_coe_output_on_invalid_palette (t : List (String × Value)) (header : String)
    (px : List Rgba) (e : CError) (h : parsePalette t = .error e) :
    convertRun t header px = ([], some e) ∧
      Event.createCoeFile ∉ (convertRun t header px).1 := by
  have hrun : convertRun t header px = ([], some e) := by
    simp only [convertRun, h]
  exact ⟨hrun, by rw [hrun]; simp⟩

/-- Witness for C10: an empty top-level table has no `palette` table. -/
theorem no_coe_output_on_invalid_palette_witness :
    convertRun [] "H" [⟨1, 2, 3, 4⟩] = ([], some CError.missingPaletteTable) ∧
      Event.createCoeFile ∉ (convertRun [] "H" [⟨1, 2, 3, 4⟩]).1 :=
  no_coe_output_on_invalid_palette [] "H" [⟨1, 2, 3, 4⟩] CError.missingPaletteTable rfl

/-! ### C3, C5, C7, C8: consequences of the formatting and slicing slips -/

/-- C3: the round-trip fails on the code: `"#0102030f"` matches
`#[0-9a-f]{8}` and parses, but `FormattedColor` space-pads (Rust
`{r:2x}`, not `{r:02x}`), so formatting the parsed color yields
`"# 1 2 3 f"`, not the original string. -/
theorem color_format_roundtrip_bug :
    parse_color "#0102030f" = .ok ⟨1, 2, 3, 15⟩ ∧
    formatColor ⟨1, 2, 3, 15⟩ = "# 1 2 3 f" ∧
    formatColor ⟨1, 2, 3, 15⟩ ≠ "#0102030f" :=
  ⟨rfl, rfl, by decide⟩

/-- C5: conversion of an image whose first pixel is `#000000ff` against
a palette lacking it aborts at that first pixel (the second pixel is
never processed), but the error message space-pads the color, so it
contains `"# 0 0 0ff"` and not `"#000000ff"`. -/
theorem convert_unmapped_abort_message_bug :
    convertRun [("palette", Value.table [])] "H" [⟨0, 0, 0, 255⟩, ⟨9, 9, 9, 9⟩] =
      ([Event.createCoeFile, Event.writeCoe "H", Event.openImage],
        some (CError.unmappedColor ⟨0, 0, 0, 255⟩)) ∧
    unmappedMessage ⟨0, 0, 0, 255⟩ =
      "could not continue: palette has no mapping for color \"# 0 0 0ff\"" ∧
    ¬ List.IsInfix "#000000ff".data (unmappedMessage ⟨0, 0, 0, 255⟩).data :=
  ⟨rfl, rfl, by decide⟩

/-- C7: `FormattedColor` does not zero-pad: the component value 0 is
rendered as `" 0"` (space then digit), so the color `#000000ff` formats
as `"# 0 0 0ff"` instead of `"#000000ff"`. -/
theorem format_color_padding_bug :
    formatColor ⟨0, 0, 0, 255⟩ = "# 0 0 0ff" ∧
    formatColor ⟨0, 0, 0, 255⟩ ≠ "#000000ff" :=
  ⟨rfl, by decide⟩

/-- C8: `parse_color` is not total: on the input `"#a£aaaaa"` (whose
remainder after `#` is exactly 8 UTF-8 bytes) the slice `&x[0..=1]` ends
inside the two-byte character `£`, and the program panics instead of
returning `None`. -/
theorem parse_color_panic_bug :
    parse_color "#a£aaaaa" = .panic :=
  rfl

end Img2coe

namespace Img2coe

theorem hexDigitVal_lt {b d : Nat} (h : hexDigitVal b = some d) : d < 16 := by
  unfold hexDigitVal at h
  split at h <;> [skip; split at h] <;> [skip; skip; split at h] <;>
    first
      | (injection h with h; omega)
      | exact absurd h (by simp)

theorem hexDigitVal_none_iff {b : Nat} : hexDigitVal b = none ↔ ¬ isHexByte b := by
  unfold hexDigitVal isHexByte
  split <;> [skip; split] <;> [skip; skip; split] <;> simp <;> omega

theorem isHexByte_lt {b : Nat} (h : isHexByte b) : b < 0x80 := by
  unfold isHexByte at h; omega

theorem fsrPairSpec_fst_lt {x y : Nat} (h : fsrPairSpec x y) : x < 0x80 := by
  rcases h with ⟨hx, _⟩ | ⟨hx, _⟩
  · exact isHexByte_lt hx
  · omega

theorem fsrPairSpec_snd_lt {x y : Nat} (h : fsrPairSpec x y) : y < 0x80 := by
  rcases h with ⟨_, hy⟩ | ⟨_, hy⟩ <;> exact isHexByte_lt hy

theorem fsr_pair (x y v : Nat) :
    u8FromStrRadix16 [x, y] = some v ↔ fsrPairSpec x y ∧ v = fsrPairVal x y := by
  by_cases hx : x = 0x2B
  · subst hx
    show (match ([y] : List Nat) with
      | [] => none
      | _ => fsrGo [y] 0) = some v ↔ _
    cases hy : hexDigitVal y with
    | none =>
        have hny : ¬ isHexByte y := hexDigitVal_none_iff.mp hy
        have hnx : ¬ isHexByte 0x2B := by unfold isHexByte; omega
        simp [fsrGo, hy, fsrPairSpec, hnx, hny]
    | some d =>
        have hd : d < 16 := hexDigitVal_lt hy
        have hhy : isHexByte y := by
          by_contra hc
          rw [hexDigitVal_none_iff.mpr hc] at hy; exact Option.noConfusion hy
        simp only [fsrGo, hy]
        rw [if_neg (by omega), if_neg (by omega)]
        simp only [fsrGo, Option.some_inj]
        constructor
        · rintro rfl
          exact ⟨Or.inr ⟨rfl, hhy⟩, by simp [fsrPairVal, hvD, hy]⟩
        · rintro ⟨_, rfl⟩
          simp [fsrPairVal, hvD, hy]
  · show (match (if x = 0x2B then [y] else [x, y]) with
      | [] => none
      | _ => fsrGo (if x = 0x2B then [y] else [x, y]) 0) = some v ↔ _
    rw [if_neg hx]
    show fsrGo [x, y] 0 = some v ↔ _
    cases hdx : hexDigitVal x with
    | none =>
        have hnx : ¬ isHexByte x := hexDigitVal_none_iff.mp hdx
        simp [fsrGo, hdx, fsrPairSpec, hnx, hx]
    | some dx =>
        have hdxlt : dx < 16 := hexDigitVal_lt hdx
        have hhx : isHexByte x := by
          by_contra hc
          rw [hexDigitVal_none_iff.mpr hc] at hdx; exact Option.noConfusion hdx
        simp only [fsrGo, hdx]
        rw [if_neg (by omega), if_neg (by omega)]
        cases hdy : hexDigitVal y with
        | none =>
            have hny : ¬ isHexByte y := hexDigitVal_none_iff.mp hdy
            simp [fsrGo, hdy, fsrPairSpec, hny, hx]
        | some dy =>
            have hdylt : dy < 16 := hexDigitVal_lt hdy
            have hhy : isHexByte y := by
              by_contra hc
              rw [hexDigitVal_none_iff.mpr hc] at hdy; exact Option.noConfusion hdy
            simp only [fsrGo, hdy]
            rw [if_neg (by omega), if_neg (by omega)]
            simp only [fsrGo, Option.some_inj]
            constructor
            · rintro rfl
              exact ⟨Or.inl ⟨hhx, hhy⟩, by simp [fsrPairVal, hvD, hdx, hdy, hx]⟩
            · rintro ⟨_, rfl⟩
              simp [fsrPairVal, hvD, hdx, hdy, hx]

end Img2coe

namespace Img2coe

theorem parseBytes8_ok_iff (b0 b1 b2 b3 b4 b5 b6 b7 : Nat) (c : Rgba) :
    parseBytes [b0, b1, b2, b3, b4, b5, b6, b7] = .ok c ↔
      fsrPairSpec b0 b1 ∧ fsrPairSpec b2 b3 ∧ fsrPairSpec b4 b5 ∧ fsrPairSpec b6 b7 ∧
        c = ⟨fsrPairVal b0 b1, fsrPairVal b2 b3, fsrPairVal b4 b5, fsrPairVal b6 b7⟩ := by
  have hs02 : slice [b0, b1, b2, b3, b4, b5, b6, b7] 0 2 = [b0, b1] := rfl
  have hs24 : slice [b0, b1, b2, b3, b4, b5, b6, b7] 2 4 = [b2, b3] := rfl
  have hs46 : slice [b0, b1, b2, b3, b4, b5, b6, b7] 4 6 = [b4, b5] := rfl
  have hs68 : slice [b0, b1, b2, b3, b4, b5, b6, b7] 6 8 = [b6, b7] := rfl
  constructor
  · intro h
    unfold parseBytes at h
    rw [if_neg (by simp), hs02, hs24, hs46, hs68] at h
    split at h
    · exact ParseResult.noConfusion h
    split at h
    · exact ParseResult.noConfusion h
    rename_i r hr
    split at h
    · exact ParseResult.noConfusion h
    split at h
    · exact ParseResult.noConfusion h
    rename_i g hg
    split at h
    · exact ParseResult.noConfusion h
    split at h
    · exact ParseResult.noConfusion h
    rename_i b hb
    split at h
    · exact ParseResult.noConfusion h
    split at h
    · exact ParseResult.noConfusion h
    rename_i a ha
    obtain ⟨h01, hrv⟩ := (fsr_pair b0 b1 r).mp hr
    obtain ⟨h23, hgv⟩ := (fsr_pair b2 b3 g).mp hg
    obtain ⟨h45, hbv⟩ := (fsr_pair b4 b5 b).mp hb
    obtain ⟨h67, hav⟩ := (fsr_pair b6 b7 a).mp ha
    injection h with h
    exact ⟨h01, h23, h45, h67, by rw [← h, hrv, hgv, hbv, hav]⟩
  · rintro ⟨h01, h23, h45, h67, rfl⟩
    have e0 : u8FromStrRadix16 [b0, b1] = some (fsrPairVal b0 b1) :=
      (fsr_pair _ _ _).mpr ⟨h01, rfl⟩
    have e1 : u8FromStrRadix16 [b2, b3] = some (fsrPairVal b2 b3) :=
      (fsr_pair _ _ _).mpr ⟨h23, rfl⟩
    have e2 : u8FromStrRadix16 [b4, b5] = some (fsrPairVal b4 b5) :=
      (fsr_pair _ _ _).mpr ⟨h45, rfl⟩
    have e3 : u8FromStrRadix16 [b6, b7] = some (fsrPairVal b6 b7) :=
      (fsr_pair _ _ _).mpr ⟨h67, rfl⟩
    have hbnd2 : isCharBoundary [b0, b1, b2, b3, b4, b5, b6, b7] 2 = true := by
      have := fsrPairSpec_fst_lt h23
      simp [isCharBoundary]
      omega
    have hbnd4 : isCharBoundary [b0, b1, b2, b3, b4, b5, b6, b7] 4 = true := by
      have := fsrPairSpec_fst_lt h45
      simp [isCharBoundary]
      omega
    have hbnd6 : isCharBoundary [b0, b1, b2, b3, b4, b5, b6, b7] 6 = true := by
      have := fsrPairSpec_fst_lt h67
      simp [isCharBoundary]
      omega
    unfold parseBytes
    rw [if_neg (by simp)]
    rw [show isCharBoundary [b0, b1, b2, b3, b4, b5, b6, b7] 0 = true from rfl,
        show isCharBoundary [b0, b1, b2, b3, b4, b5, b6, b7] 8 = true from rfl,
        hbnd2, hbnd4, hbnd6, hs02, hs24, hs46, hs68, e0, e1, e2, e3]
    simp

end Img2coe

namespace Img2coe

theorem parseBytes_ok_iff (x : List Nat) (c : Rgba) :
    parseBytes x = .ok c ↔
      ∃ b0 b1 b2 b3 b4 b5 b6 b7, x = [b0, b1, b2, b3, b4, b5, b6, b7] ∧
        fsrPairSpec b0 b1 ∧ fsrPairSpec b2 b3 ∧ fsrPairSpec b4 b5 ∧ fsrPairSpec b6 b7 ∧
        c = ⟨fsrPairVal b0 b1, fsrPairVal b2 b3, fsrPairVal b4 b5, fsrPairVal b6 b7⟩ := by
  constructor
  · intro h
    have hlen : x.length = 8 := by
      by_contra hne
      unfold parseBytes at h
      rw [if_pos hne] at h
      exact ParseResult.noConfusion h
    rcases x with _ | ⟨b0, x⟩; · simp at hlen
    rcases x with _ | ⟨b1, x⟩; · simp at hlen
    rcases x with _ | ⟨b2, x⟩; · simp at hlen
    rcases x with _ | ⟨b3, x⟩; · simp at hlen
    rcases x with _ | ⟨b4, x⟩; · simp at hlen
    rcases x with _ | ⟨b5, x⟩; · simp at hlen
    rcases x with _ | ⟨b6, x⟩; · simp at hlen
    rcases x with _ | ⟨b7, x⟩; · simp at hlen
    rcases x with _ | ⟨b8, x⟩
    · obtain ⟨h01, h23, h45, h67, hc⟩ := (parseBytes8_ok_iff b0 b1 b2 b3 b4 b5 b6 b7 c).mp h
      exact ⟨b0, b1, b2, b3, b4, b5, b6, b7, rfl, h01, h23, h45, h67, hc⟩
    · simp at hlen
  · rintro ⟨b0, b1, b2, b3, b4, b5, b6, b7, rfl, h01, h23, h45, h67, hc⟩
    exact (parseBytes8_ok_iff b0 b1 b2 b3 b4 b5 b6 b7 c).mpr ⟨h01, h23, h45, h67, hc⟩

theorem parse_color_eq_parseBytes (s : String) (ch : Char) (rest : List Char)
    (hd : s.data = ch :: rest) (hch : ch = '#') :
    parse_color s = parseBytes (utf8Bytes rest) := by
  unfold parse_color
  rw [hd, hch]
  simp

/-- C4 (amended): `parse_color` returns a color exactly when the input
starts with `#` followed by exactly 8 UTF-8 bytes whose four consecutive
two-byte groups are each accepted by `u8::from_str_radix(_, 16)` — i.e.
each group is two hex digits, or a `+` sign followed by one hex digit —
the groups decoding red, green, blue, alpha in that order.  Other
inputs never produce a color (most yield no-match, and an 8-byte
remainder with a group boundary inside a multi-byte character panics). -/
theorem parse_color_ok_iff_spec (s : String) (c : Rgba) :
    parse_color s = .ok c ↔ parseSpec s c := by
  cases hd : s.data with
  | nil =>
      unfold parse_color parseSpec
      rw [hd]
      simp
  | cons ch rest =>
      by_cases hch : ch = '#'
      · rw [parse_color_eq_parseBytes s ch rest hd hch, parseBytes_ok_iff]
        unfold parseSpec
        rw [hd, hch]
        simp
      · have hnm : parse_color s = .noMatch := by
          unfold parse_color
          rw [hd]
          simp [hch]
        rw [hnm]
        unfold parseSpec
        rw [hd]
        simp [hch]

end Img2coe

namespace Img2coe

theorem processEntries_ne_missing (m : List (String × Value)) (acc : List (Rgba × Int)) :
    processEntries m acc ≠ .error .missingPaletteTable := by
  induction m generalizing acc with
  | nil => exact fun h => Except.noConfusion h
  | cons kv rest ih =>
      obtain ⟨k, v⟩ := kv
      intro h
      unfold processEntries at h
      cases hpc : parse_color k with
      | panic => rw [hpc] at h; injection h with h; exact CError.noConfusion h
      | noMatch => rw [hpc] at h; injection h with h; exact CError.noConfusion h
      | ok c =>
          rw [hpc] at h
          cases hn : v.as_integer with
          | none => rw [hn] at h; injection h with h; exact CError.noConfusion h
          | some n => rw [hn] at h; exact ih (palInsert acc c n) h

theorem parsePalette_eq_process (t : List (String × Value)) (m : List (String × Value))
    (hg : getPaletteTable t = some m) : parsePalette t = processEntries m [] := by
  unfold parsePalette
  rw [hg]

theorem parsePalette_missing_iff (t : List (String × Value)) :
    parsePalette t = .error .missingPaletteTable ↔ getPaletteTable t = none := by
  cases hg : getPaletteTable t with
  | none =>
      have : parsePalette t = .error .missingPaletteTable := by
        unfold parsePalette; rw [hg]
      simp [this]
  | some m =>
      rw [parsePalette_eq_process t m hg]
      simp [processEntries_ne_missing m []]

theorem processEntries_cons_step (k : String) (v : Value) (rest : List (String × Value))
    (acc : List (Rgba × Int)) (c : Rgba) (n : Int) (hpc : parse_color k = .ok c)
    (hn : v.as_integer = some n) :
    processEntries ((k, v) :: rest) acc = processEntries rest (palInsert acc c n) := by
  simp only [processEntries, hpc, hn]

theorem processEntries_ok_of_valid (m : List (String × Value)) (acc : List (Rgba × Int))
    (h : ∀ kv ∈ m, validEntry kv) : ∃ p, processEntries m acc = .ok p := by
  induction m generalizing acc with
  | nil => exact ⟨acc, rfl⟩
  | cons kv rest ih =>
      obtain ⟨k, v⟩ := kv
      obtain ⟨hok, hint⟩ := h (k, v) (List.mem_cons_self _ _)
      cases hpc : parse_color k with
      | panic => simp [ParseResult.isOk, hpc] at hok
      | noMatch => simp [ParseResult.isOk, hpc] at hok
      | ok c =>
          obtain ⟨n, hn⟩ := Option.isSome_iff_exists.mp hint
          rw [processEntries_cons_step k v rest acc c n hpc hn]
          exact ih _ fun e he => h e (List.mem_cons_of_mem _ he)

theorem processEntries_valid_of_ok (m : List (String × Value)) (acc : List (Rgba × Int))
    (p : List (Rgba × Int)) (h : processEntries m acc = .ok p) :
    ∀ kv ∈ m, validEntry kv := by
  induction m generalizing acc with
  | nil => exact fun kv hkv => absurd hkv (List.not_mem_nil kv)
  | cons kv rest ih =>
      obtain ⟨k, v⟩ := kv
      unfold processEntries at h
      cases hpc : parse_color k with
      | panic => rw [hpc] at h; exact Except.noConfusion h
      | noMatch => rw [hpc] at h; exact Except.noConfusion h
      | ok c =>
          rw [hpc] at h
          cases hn : v.as_integer with
          | none => rw [hn] at h; exact Except.noConfusion h
          | some n =>
              rw [hn] at h
              intro kv hkv
              rcases List.mem_cons.mp hkv with heq | hmem
              · subst heq
                constructor
                · simp [ParseResult.isOk, hpc]
                · simp [hn]
              · exact ih _ h kv hmem

theorem processEntries_first_error (pre : List (String × Value)) (kv : String × Value)
    (post : List (String × Value)) (acc : List (Rgba × Int))
    (hpre : ∀ e ∈ pre, validEntry e) (hbad : ¬ validEntry kv) :
    processEntries (pre ++ kv :: post) acc = .error (entryError kv) := by
  induction pre generalizing acc with
  | nil =>
      obtain ⟨k, v⟩ := kv
      simp only [List.nil_append]
      unfold processEntries entryError
      cases hpc : parse_color k with
      | panic => rfl
      | noMatch => rfl
      | ok c =>
          cases hn : v.as_integer with
          | none => rfl
          | some n =>
              refine absurd ⟨?_, ?_⟩ hbad
              · simp [ParseResult.isOk, hpc]
              · simp [hn]
  | cons e pre ih =>
      obtain ⟨k0, v0⟩ := e
      obtain ⟨hok, hint⟩ := hpre (k0, v0) (List.mem_cons_self _ _)
      cases hpc : parse_color k0 with
      | panic => simp [ParseResult.isOk, hpc] at hok
      | noMatch => simp [ParseResult.isOk, hpc] at hok
      | ok c =>
          obtain ⟨n, hn⟩ := Option.isSome_iff_exists.mp hint
          rw [List.cons_append, processEntries_cons_step k0 v0 _ acc c n hpc hn]
          exact ih _ fun e he => hpre e (List.mem_cons_of_mem _ he)

end Img2coe

namespace Img2coe

theorem processEntries_mem_source (m : List (String × Value)) (acc : List (Rgba × Int))
    (p : List (Rgba × Int)) (h : processEntries m acc = .ok p) :
    ∀ e ∈ p, e ∈ acc ∨
      ∃ kv, kv ∈ m ∧ parse_color kv.1 = .ok e.1 ∧ kv.2.as_integer = some e.2 := by
  induction m generalizing acc with
  | nil =>
      simp only [processEntries] at h
      injection h with h
      subst h
      exact fun e he => Or.inl he
  | cons kv rest ih =>
      obtain ⟨k, v⟩ := kv
      unfold processEntries at h
      cases hpc : parse_color k with
      | panic => rw [hpc] at h; exact Except.noConfusion h
      | noMatch => rw [hpc] at h; exact Except.noConfusion h
      | ok c =>
          rw [hpc] at h
          cases hn : v.as_integer with
          | none => rw [hn] at h; exact Except.noConfusion h
          | some n =>
              rw [hn] at h
              intro e he
              rcases ih _ h e he with hacc | ⟨kv', hkv', hp', hn'⟩
              · rcases List.mem_cons.mp hacc with heq | hmem
                · subst heq
                  exact Or.inr ⟨(k, v), List.mem_cons_self _ _, by simpa using hpc,
                    by simpa using hn⟩
                · exact Or.inl hmem
              · exact Or.inr ⟨kv', List.mem_cons_of_mem _ hkv', hp', hn'⟩

theorem processEntries_lookup_last (m : List (String × Value)) (acc p : List (Rgba × Int))
    (hval : ∀ kv ∈ m, validEntry kv) (h : processEntries m acc = .ok p) (c : Rgba) :
    palLookup p c =
      match lastEntryCode m c with
      | some n => some n
      | none => palLookup acc c := by
  induction m generalizing acc with
  | nil =>
      simp only [processEntries] at h
      injection h with h
      subst h
      rfl
  | cons kv0 rest ih =>
      obtain ⟨k0, v0⟩ := kv0
      obtain ⟨hok0, hint0⟩ := hval (k0, v0) (List.mem_cons_self _ _)
      cases hpc0 : parse_color k0 with
      | panic => simp [ParseResult.isOk, hpc0] at hok0
      | noMatch => simp [ParseResult.isOk, hpc0] at hok0
      | ok c0 =>
          obtain ⟨n0, hn0⟩ := Option.isSome_iff_exists.mp (by simpa using hint0)
          have hn0i : v0.as_integer = some n0 := by simpa using hn0
          rw [processEntries_cons_step k0 v0 rest acc c0 n0 hpc0 hn0i] at h
          have ihh := ih _ (fun e he => hval e (List.mem_cons_of_mem _ he)) h
          have hrev : ((k0, v0) :: rest).reverse = rest.reverse ++ [(k0, v0)] := by
            simp
          cases hfind : rest.reverse.find? (fun kv => parse_color kv.1 == .ok c) with
          | some kv! =>
              have hmem : kv! ∈ rest := by
                have hm := List.mem_of_find?_eq_some hfind
                simpa using hm
              obtain ⟨_, hint!⟩ := hval kv! (List.mem_cons_of_mem _ hmem)
              obtain ⟨n!, hn!⟩ := Option.isSome_iff_exists.mp hint!
              have hle : lastEntryCode rest c = some n! := by
                simp only [lastEntryCode, hfind]
                exact hn!
              have hcons : lastEntryCode ((k0, v0) :: rest) c = some n! := by
                simp only [lastEntryCode, hrev, List.find?_append, hfind, Option.or]
                exact hn!
              rw [hle] at ihh
              rw [hcons]
              exact ihh
          | none =>
              have hle : lastEntryCode rest c = none := by
                simp only [lastEntryCode, hfind]
              rw [hle] at ihh
              by_cases hcc : c0 = c
              · subst hcc
                have hcons : lastEntryCode ((k0, v0) :: rest) c0 = some n0 := by
                  simp only [lastEntryCode, hrev, List.find?_append, hfind, Option.or]
                  simp [List.find?, hpc0, hn0i]
                rw [hcons, ihh]
                show palLookup ((c0, n0) :: acc) c0 = some n0
                simp [palLookup]
              · have hbeq : (ParseResult.ok c0 == ParseResult.ok c) = false := by
                  simp only [beq_eq_false_iff_ne, ne_eq, ParseResult.ok.injEq]
                  exact hcc
                have hcons : lastEntryCode ((k0, v0) :: rest) c = none := by
                  simp only [lastEntryCode, hrev, List.find?_append, hfind, Option.or]
                  simp [List.find?, hpc0, hbeq]
                rw [hcons, ihh]
                show palLookup ((c0, n0) :: acc) c = palLookup acc c
                simp only [palLookup]
                rw [List.find?_cons_of_neg _ (by simp [hcc])]

end Img2coe

namespace Img2coe

/-- C6 (amended): palette-table parsing fails with `MissingPaletteTable`
exactly when no top-level `palette` table is present.  Otherwise entries
are checked in iteration order and any single malformed entry aborts the
whole parse: a table is parsed successfully iff all its entries are
valid, and the first malformed entry determines the error —
`InvalidColor(key)` when the key fails to parse as a color,
`InvalidValueType(value)` when the key parses but the value is not an
integer, and a panic when the key triggers the byte-slicing panic of
`parse_color`.  A fully valid table parses successfully into the palette
that maps each color to the `as_integer` value of the last table entry
whose key parses to that color (later inserts into the `HashMap`
overwrite earlier ones), and maps no other color. -/
theorem palette_table_validation (t : List (String × Value)) :
    (parsePalette t = .error .missingPaletteTable ↔ getPaletteTable t = none) ∧
    ∀ m, getPaletteTable t = some m →
      ((∀ kv ∈ m, validEntry kv) → ∃ p, parsePalette t = .ok p) ∧
      (∀ p, parsePalette t = .ok p → ∀ kv ∈ m, validEntry kv) ∧
      (∀ pre kv post, m = pre ++ kv :: post → (∀ e ∈ pre, validEntry e) →
        ¬ validEntry kv → parsePalette t = .error (entryError kv)) ∧
      ((∀ kv ∈ m, validEntry kv) →
        ∃ p, parsePalette t = .ok p ∧ ∀ c, palLookup p c = lastEntryCode m c) := by
  refine ⟨parsePalette_missing_iff t, fun m hg => ⟨?_, ?_, ?_, ?_⟩⟩
  · intro hval
    rw [parsePalette_eq_process t m hg]
    exact processEntries_ok_of_valid m [] hval
  · intro p hp
    rw [parsePalette_eq_process t m hg] at hp
    exact processEntries_valid_of_ok m [] p hp
  · rintro pre kv post rfl hpre hbad
    rw [parsePalette_eq_process t _ hg]
    exact processEntries_first_error pre kv post [] hpre hbad
  · intro hval
    obtain ⟨p, hp⟩ := processEntries_ok_of_valid m [] hval
    refine ⟨p, by rw [parsePalette_eq_process t m hg]; exact hp, fun c => ?_⟩
    have hl := processEntries_lookup_last m [] p hval hp c
    cases hle : lastEntryCode m c with
    | some n =>
        rw [hle] at hl
        exact hl
    | none =>
        rw [hle] at hl
        exact hl

/-- C6 counterexample: the key `"#a£aaaaa"` does not parse as a color,
but the parse aborts with a panic, not with `InvalidColor` as the claim
states. -/
theorem palette_table_panic_counterexample :
    parsePalette [("palette", Value.table [("#a£aaaaa", Value.int 0)])] =
      .error CError.panic ∧
    parsePalette [("palette", Value.table [("#a£aaaaa", Value.int 0)])] ≠
      .error (CError.invalidColor "#a£aaaaa") := by
  refine ⟨rfl, fun h => ?_⟩
  have h' : (Except.error CError.panic : Except CError (List (Rgba × Int))) =
      .error (CError.invalidColor "#a£aaaaa") := h
  injection h' with h2
  exact CError.noConfusion h2

/-- Witness for C6: a first malformed entry yields `InvalidColor`. -/
theorem palette_table_validation_witness :
    parsePalette [("palette", Value.table [("bad", Value.int 0)])] =
      .error (CError.invalidColor "bad") := by
  have h := ((palette_table_validation [("palette", Value.table [("bad", Value.int 0)])]).2
      [("bad", Value.int 0)] rfl).2.2.1 [] ("bad", Value.int 0) [] rfl
      (fun e he => absurd he (List.not_mem_nil e)) (by decide)
  exact h

/-- C9 (amended): every code stored in a parsed palette is exactly the
`as_integer` value of some entry of the `palette` table whose key parses
to that color — the code is not checked for non-negativity and may be
negative. -/
theorem palette_codes_provenance (t m p : List _) (hg : getPaletteTable t = some m)
    (hp : parsePalette t = .ok p) :
    ∀ e ∈ p, ∃ kv, kv ∈ m ∧ parse_color kv.1 = .ok e.1 ∧ kv.2.as_integer = some e.2 := by
  rw [parsePalette_eq_process t m hg] at hp
  intro e he
  rcases processEntries_mem_source m [] p hp e he with hacc | hsrc
  · exact absurd hacc (List.not_mem_nil e)
  · exact hsrc

/-- C9 counterexample: a palette entry with value `-1` parses
successfully and stores the negative code `-1`. -/
theorem palette_code_negative_counterexample :
    parsePalette [("palette", Value.table [("#00000000", Value.int (-1))])] =
      .ok [(⟨0, 0, 0, 0⟩, -1)] ∧ (-1 : Int) < 0 :=
  ⟨rfl, by decide⟩

/-- Witness for C9 at a concrete table containing a negative code. -/
theorem palette_codes_provenance_witness :
    ∃ kv, kv ∈ [("#00000000", Value.int (-1))] ∧
      parse_color kv.1 = .ok ⟨0, 0, 0, 0⟩ ∧ kv.2.as_integer = some (-1) :=
  palette_codes_provenance [("palette", Value.table [("#00000000", Value.int (-1))])]
    [("#00000000", Value.int (-1))] [(⟨0, 0, 0, 0⟩, -1)] rfl rfl
    (⟨0, 0, 0, 0⟩, -1) (List.mem_singleton_self _)

/-- C4 counterexample: `"#+f+f+f+f"` is not `#` followed by 8 hex
digits, yet `parse_color` accepts it (as 15,15,15,15), because
`u8::from_str_radix` accepts a leading `+` sign. -/
theorem parse_color_accepts_plus_counterexample :
    parse_color "#+f+f+f+f" = .ok ⟨15, 15, 15, 15⟩ ∧ ¬ hexPattern "#+f+f+f+f" :=
  ⟨rfl, by decide⟩

/-- Witness for C4 at a concrete valid input. -/
theorem parse_color_ok_iff_spec_witness : parseSpec "#11223344" ⟨17, 34, 51, 68⟩ :=
  (parse_color_ok_iff_spec "#11223344" ⟨17, 34, 51, 68⟩).mp rfl

end Img2coe
